import Mathlib

/-!
Shallow embedding of the `rocket-file-cache` crate (`src/lib.rs`) and proofs
about its admission/eviction engine.

Modelling conventions:
* `HashMap<PathBuf, V>` becomes an association list `List (String × V)` with
  unique keys (uniqueness is proved as an invariant of all reachable states).
  `insert` is model led as erase-then-append, `remove` as `eraseKey`, and the
  `entry(..).or_insert(0)` + increment idiom of `increment_access_count` as
  `bump`.
* `usize` arithmetic is modelled with `Nat`, the single `isize` expression
  (`required_space_for_new_file`) with `Int`, and the `as usize` cast back
  with `Int.toNat`; file sizes are nowhere near overflow, which the spec
  treats as out of scope.
* `Arc<SizedFile>` sharing is not observable in any claim, so a `SizedFile`
  is passed by value.
* `Vec::pop` from the tail of the descending-sorted priority vector is
  modelled by recursing over the reversed list.
* Rust's stable `sort_by` is modelled by a stable insertion sort
  (`sort_by`); the only facts the development uses about the sort are that
  its output is a permutation of its input and its value on lists of at most
  one element, both of which hold for every sorting algorithm.
* the `f64`-based square root of `balanced_priority`
  (`(size as f64).sqrt() as usize`) is modelled by the integer square root
  `sqrt_iter`, proved below to agree with `Nat.sqrt`; truncating the `f64`
  square root agrees with the integer square root throughout the range where
  `f64` arithmetic is exact, which covers every realistic file size.
* the filesystem read `SizedFile::open` is an external collaborator; its
  outcome is a parameter `read : String → Option SizedFile` of
  `get_or_cache`.
-/

/-! ## Association-list model of the two hash maps -/

/-- Lookup in an association list: `HashMap::get`. -/
def lookupA {β : Type} : List (String × β) → String → Option β
  | [], _ => none
  | e :: rest, k => if e.1 = k then some e.2 else lookupA rest k

/-- Remove every binding of key `k`: `HashMap::remove` (association lists with
unique keys hold at most one such binding). -/
def eraseKey {β : Type} (k : String) : List (String × β) → List (String × β)
  | [] => []
  | e :: rest => if e.1 = k then eraseKey k rest else e :: eraseKey k rest

/-- Insert-or-replace a binding: `HashMap::insert`. -/
def insertA {β : Type} (m : List (String × β)) (k : String) (v : β) : List (String × β) :=
  eraseKey k m ++ [(k, v)]

/-- Remove a list of keys one after the other: the removal `for` loop of
`make_room_for_new_file`. -/
def eraseAll {β : Type} (m : List (String × β)) (ks : List String) : List (String × β) :=
  ks.foldl (fun acc k => eraseKey k acc) m

/-- The keys of an association list. -/
def keysOf {β : Type} (m : List (String × β)) : List String :=
  m.map (fun e => e.1)

/-- Model of `self.access_count_map.entry(path).or_insert(0); *count += 1`:
increment an existing binding in place, or append a fresh binding at 1. -/
def bump (k : String) : List (String × Nat) → List (String × Nat)
  | [] => [(k, 1)]
  | e :: rest => if e.1 = k then (e.1, e.2 + 1) :: rest else e :: bump k rest

/-! ## Stable insertion sort (model of `Vec::sort_by`) -/

/-- Insert `a` in front of the first element `b` with `le a b`. -/
def insert_by {α : Type} (le : α → α → Bool) (a : α) : List α → List α
  | [] => [a]
  | b :: l => if le a b then a :: b :: l else b :: insert_by le a l

/-- Insertion sort with respect to the boolean relation `le`. -/
def sort_by {α : Type} (le : α → α → Bool) : List α → List α
  | [] => []
  | a :: l => insert_by le a (sort_by le l)

/-! ## Integer square root -/

/-- Fuel-driven binary integer square root: `sqrt_iter fuel n` is the floor
of the square root of `n` whenever `n < 4 ^ fuel`.  Written with explicit
fuel (rather than well-founded recursion on `n / 4`) so that it reduces
inside the kernel on concrete inputs. -/
def sqrt_iter (fuel : Nat) (n : Nat) : Nat :=
  match fuel with
  | 0 => 0
  | fuel + 1 =>
    if n = 0 then 0
    else
      let s := sqrt_iter fuel (n / 4)
      if (2 * s + 1) * (2 * s + 1) ≤ n then 2 * s + 1 else 2 * s

/-! ## Value types and results (`SizedFile`, `CachedFile`, result enums) -/

/-- In-memory byte buffer with its cached length (`struct SizedFile`).  The
cache logic only ever reads the `size` field. -/
structure SizedFile where
  bytes : List Nat
  size : Nat
deriving DecidableEq

/-- Handle returned to callers (`struct CachedFile`): a path plus the file
buffer it shares. -/
structure CachedFile where
  path : String
  file : SizedFile
deriving DecidableEq

/-- Rust `enum CacheInvalidationError`.  `try_store` only ever surfaces
`NewPriorityIsNotHighEnough` (the spec's *PriorityTooLow*). -/
inductive CacheInvalidationError where
  | NoMoreFilesToRemove
  | NewPriorityIsNotHighEnough
deriving DecidableEq

/-- Rust `enum CacheInvalidationSuccess`. -/
inductive CacheInvalidationSuccess where
  | ReplacedFile
  | InsertedFileIntoAvailableSpace
deriving DecidableEq

/-- Rust `type PriorityFunction = fn(usize, usize) -> usize`: first argument
is the access count, second the size in bytes. -/
def PriorityFunction : Type := Nat → Nat → Nat

/-- The cache engine state (`struct Cache`). -/
structure Cache where
  size_limit : Nat
  priority_function : PriorityFunction
  file_map : List (String × SizedFile)
  access_count_map : List (String × Nat)

/-! ## Priority functions -/

/-- Model of `Cache::balanced_priority`:
`((size as f64).sqrt() as usize) * access_count`. -/
def balanced_priority (access_count : Nat) (size : Nat) : Nat :=
  sqrt_iter size size * access_count

/-- Model of `Cache::access_priority`. -/
def access_priority (access_count : Nat) (_size : Nat) : Nat :=
  access_count

/-- Model of `Cache::DEFAULT_PRIORITY_FUNCTION`. -/
def DEFAULT_PRIORITY_FUNCTION : PriorityFunction := balanced_priority

/-! ## Cache operations -/

/-- Model of `Cache::new`. -/
def Cache.new (size_limit : Nat) : Cache :=
  { size_limit := size_limit
    priority_function := DEFAULT_PRIORITY_FUNCTION
    file_map := []
    access_count_map := [] }

/-- Model of `Cache::new_with_priority_function`. -/
def Cache.new_with_priority_function (size_limit : Nat) (priority_function : PriorityFunction) :
    Cache :=
  { size_limit := size_limit
    priority_function := priority_function
    file_map := []
    access_count_map := [] }

/-- Model of `Cache::size_bytes`: fold the sizes of the resident entries. -/
def size_bytes (c : Cache) : Nat :=
  c.file_map.foldl (fun size x => size + x.2.size) 0

/-- The per-entry computation inside `Cache::sorted_priorities`: a resident
entry is mapped to `(path, priority, size)` where the access count defaults
to **1** when the path has no entry in `access_count_map`
(`unwrap_or(&1usize)` in the source). -/
def file_priority_entry (c : Cache) (e : String × SizedFile) : String × Nat × Nat :=
  (e.1, c.priority_function ((lookupA c.access_count_map e.1).getD 1) e.2.size, e.2.size)

/-- Model of `Cache::sorted_priorities`: every resident entry scored, sorted
from highest to lowest priority. -/
def sorted_priorities (c : Cache) : List (String × Nat × Nat) :=
  sort_by (fun l r => decide (r.2.1 ≤ l.2.1)) (c.file_map.map (file_priority_entry c))

/-- The `while possibly_freed_space < required_space` loop of
`make_room_for_new_file`.  `pending` is the reversed sorted priority vector,
so taking its head is `Vec::pop` from the descending-sorted tail.  On success
it returns the accumulated `file_paths_to_remove`. -/
def make_room_loop (pending : List (String × Nat × Nat))
    (required_space new_file_priority : Nat)
    (possibly_freed_space priority_score_to_free : Nat)
    (file_paths_to_remove : List String) : Except String (List String) :=
  if possibly_freed_space < required_space then
    match pending with
    | [] => Except.error "No more files to remove"
    | lowest :: rest =>
      if priority_score_to_free + lowest.2.1 > new_file_priority then
        Except.error "Priority of new file is not higher than the aggregate priority of the files it would replace"
      else
        make_room_loop rest required_space new_file_priority
          (possibly_freed_space + lowest.2.2) (priority_score_to_free + lowest.2.1)
          (file_paths_to_remove ++ [lowest.1])
  else
    Except.ok file_paths_to_remove

/-- Model of `Cache::make_room_for_new_file`: on success the selected
lowest-priority entries have been removed from `file_map`; on failure the
cache is untouched and the internal error message distinguishes the two
abort causes. -/
def make_room_for_new_file (c : Cache) (required_space : Nat) (new_file_priority : Nat) :
    Except String Cache :=
  match make_room_loop (sorted_priorities c).reverse required_space new_file_priority 0 0 [] with
  | Except.ok file_paths_to_remove =>
    Except.ok { c with file_map := eraseAll c.file_map file_paths_to_remove }
  | Except.error msg => Except.error msg

/-- The `isize` expression
`(self.size_bytes() as isize + file.size as isize) - self.size_limit as isize`
of `Cache::try_store`. -/
def required_space_for_new_file (c : Cache) (file : SizedFile) : Int :=
  ((size_bytes c : Int) + (file.size : Int)) - (c.size_limit : Int)

/-- Model of `Cache::try_store`.  Returns the `Result` together with the
updated cache state (`&mut self` made explicit). -/
def try_store (c : Cache) (path : String) (file : SizedFile) :
    Except CacheInvalidationError CacheInvalidationSuccess × Cache :=
  if required_space_for_new_file c file < 0 then
    (Except.ok CacheInvalidationSuccess.InsertedFileIntoAvailableSpace,
     { c with file_map := insertA c.file_map path file })
  else
    match make_room_for_new_file c (required_space_for_new_file c file).toNat
        (c.priority_function ((lookupA c.access_count_map path).getD 0) file.size) with
    | Except.ok c2 =>
      (Except.ok CacheInvalidationSuccess.ReplacedFile,
       { c2 with file_map := insertA c2.file_map path file })
    | Except.error _ =>
      (Except.error CacheInvalidationError.NewPriorityIsNotHighEnough, c)

/-- Model of `Cache::get`: build a handle sharing the resident buffer. -/
def Cache.get (c : Cache) (path : String) : Option CachedFile :=
  match lookupA c.file_map path with
  | some sized_file => some { path := path, file := sized_file }
  | none => none

/-- Model of `Cache::increment_access_count`. -/
def increment_access_count (c : Cache) (path : String) : Cache :=
  { c with access_count_map := bump path c.access_count_map }

/-- Model of `Cache::get_or_cache`, parameterised by the blob-store read
(`SizedFile::open`), whose outcome is external to the engine. -/
def get_or_cache (read : String → Option SizedFile) (c : Cache) (path : String) :
    Option CachedFile × Cache :=
  match c.get path with
  | some cache_file => (some cache_file, increment_access_count c path)
  | none =>
    match read path with
    | some file =>
      let c1 := increment_access_count c path
      (some { path := path, file := file }, (try_store c1 path file).2)
    | none => (none, c)

/-- The reachable cache states: anything produced from a constructor by a
sequence of `try_store`, `increment_access_count` and `get_or_cache` calls
(the latter under an arbitrary blob store). -/
inductive Reachable : Cache → Prop where
  | new_cache (size_limit : Nat) : Reachable (Cache.new size_limit)
  | new_with (size_limit : Nat) (pf : PriorityFunction) :
      Reachable (Cache.new_with_priority_function size_limit pf)
  | store (c : Cache) (path : String) (file : SizedFile) :
      Reachable c → Reachable (try_store c path file).2
  | incr (c : Cache) (path : String) :
      Reachable c → Reachable (increment_access_count c path)
  | get_cache (read : String → Option SizedFile) (c : Cache) (path : String) :
      Reachable c → Reachable (get_or_cache read c path).2

/-! ## Derived quantities used by the proofs -/

/-- Total byte size of an association list of files (specification-side view
of `size_bytes`, defined via `List.sum` for ease of reasoning). -/
def sumSizes (m : List (String × SizedFile)) : Nat :=
  (m.map (fun e => e.2.size)).sum

/-- Remove the first occurrence of an element from a list (proof-side helper
for reasoning about which scored entries the eviction loop consumed). -/
def eraseFirst {α : Type} [DecidableEq α] (a : α) : List α → List α
  | [] => []
  | b :: l => if b = a then l else b :: eraseFirst a l

/-! ## Lemmas about the association-list operations -/

theorem foldl_add_size (m : List (String × SizedFile)) :
    ∀ n : Nat, m.foldl (fun size x => size + x.2.size) n = n + sumSizes m := by
  induction m with
  | nil => intro n; simp [sumSizes]
  | cons e rest ih =>
    intro n
    simp only [List.foldl_cons, ih, sumSizes, List.map_cons, List.sum_cons]
    omega

theorem size_bytes_eq_sumSizes (c : Cache) : size_bytes c = sumSizes c.file_map := by
  simp [size_bytes, foldl_add_size]

theorem mem_keysOf_of_mem {β : Type} {m : List (String × β)} {e : String × β}
    (h : e ∈ m) : e.1 ∈ keysOf m :=
  List.mem_map_of_mem _ h

theorem keysOf_eraseKey_sublist {β : Type} (k : String) (m : List (String × β)) :
    (keysOf (eraseKey k m)).Sublist (keysOf m) := by
  induction m with
  | nil => simp [eraseKey, keysOf]
  | cons e rest ih =>
    simp only [eraseKey]
    split
    · exact ih.trans (List.sublist_cons_self _ _)
    · exact ih.cons₂ e.1

theorem nodup_keysOf_eraseKey {β : Type} (k : String) (m : List (String × β))
    (h : (keysOf m).Nodup) : (keysOf (eraseKey k m)).Nodup :=
  (keysOf_eraseKey_sublist k m).nodup h

theorem not_mem_keysOf_eraseKey {β : Type} (k : String) (m : List (String × β)) :
    k ∉ keysOf (eraseKey k m) := by
  induction m with
  | nil => simp [eraseKey, keysOf]
  | cons e rest ih =>
    simp only [eraseKey]
    split
    · exact ih
    · simp only [keysOf, List.map_cons, List.mem_cons]
      rintro (h | h)
      · exact ‹¬ e.1 = k› h.symm
      · exact ih h

theorem eraseKey_eq_self_of_not_mem {β : Type} (k : String) (m : List (String × β))
    (h : k ∉ keysOf m) : eraseKey k m = m := by
  induction m with
  | nil => rfl
  | cons e rest ih =>
    simp only [keysOf, List.map_cons, List.mem_cons, not_or] at h
    simp only [eraseKey]
    rw [if_neg (fun he => h.1 he.symm), ih h.2]

theorem nodup_keysOf_insertA {β : Type} (m : List (String × β)) (k : String) (v : β)
    (h : (keysOf m).Nodup) : (keysOf (insertA m k v)).Nodup := by
  have : keysOf (insertA m k v) = keysOf (eraseKey k m) ++ [k] := by
    simp [insertA, keysOf]
  rw [this, List.nodup_append]
  refine ⟨nodup_keysOf_eraseKey k m h, List.nodup_singleton k, ?_⟩
  intro x hx hk
  rw [List.mem_singleton] at hk
  exact not_mem_keysOf_eraseKey k m (hk ▸ hx)

theorem nodup_keysOf_eraseAll {β : Type} (ks : List String) :
    ∀ m : List (String × β), (keysOf m).Nodup → (keysOf (eraseAll m ks)).Nodup := by
  induction ks with
  | nil => intro m h; exact h
  | cons k ks ih =>
    intro m h
    exact ih (eraseKey k m) (nodup_keysOf_eraseKey k m h)

theorem mem_keysOf_bump (k x : String) (m : List (String × Nat)) :
    x ∈ keysOf (bump k m) → x ∈ keysOf m ∨ x = k := by
  induction m with
  | nil => simp [bump, keysOf]
  | cons e rest ih =>
    simp only [bump]
    split
    · exact fun hx => Or.inl hx
    · simp only [keysOf, List.map_cons, List.mem_cons]
      rintro (h | h)
      · exact Or.inl (Or.inl h)
      · rcases ih h with h' | h'
        · exact Or.inl (Or.inr h')
        · exact Or.inr h'

theorem nodup_keysOf_bump (k : String) (m : List (String × Nat))
    (h : (keysOf m).Nodup) : (keysOf (bump k m)).Nodup := by
  induction m with
  | nil => simp [bump, keysOf]
  | cons e rest ih =>
    simp only [keysOf, List.map_cons, List.nodup_cons] at h
    simp only [bump]
    split
    · simp only [keysOf, List.map_cons, List.nodup_cons]
      exact ⟨h.1, h.2⟩
    · simp only [keysOf, List.map_cons, List.nodup_cons]
      refine ⟨?_, ih h.2⟩
      intro hx
      rcases mem_keysOf_bump k e.1 rest hx with h' | h'
      · exact h.1 h'
      · exact ‹¬ e.1 = k› h'

theorem lookupA_bump (k : String) (m : List (String × Nat)) :
    lookupA (bump k m) k = some ((lookupA m k).getD 0 + 1) := by
  induction m with
  | nil => simp [bump, lookupA]
  | cons e rest ih =>
    simp only [bump]
    split
    · simp only [lookupA, if_pos ‹e.1 = k›]
      rfl
    · simp only [lookupA, if_neg ‹¬ e.1 = k›, ih]

theorem sumSizes_eraseKey_le (k : String) (m : List (String × SizedFile)) :
    sumSizes (eraseKey k m) ≤ sumSizes m := by
  induction m with
  | nil => simp [eraseKey]
  | cons e rest ih =>
    simp only [eraseKey]
    split
    · simp only [sumSizes, List.map_cons, List.sum_cons] at *
      omega
    · simp only [sumSizes, List.map_cons, List.sum_cons] at *
      omega

theorem sumSizes_insertA (m : List (String × SizedFile)) (k : String) (v : SizedFile) :
    sumSizes (insertA m k v) = sumSizes (eraseKey k m) + v.size := by
  simp [insertA, sumSizes]

theorem sumSizes_eraseKey_of_mem (m : List (String × SizedFile)) (e : String × SizedFile)
    (he : e ∈ m) (h : (keysOf m).Nodup) :
    sumSizes m = e.2.size + sumSizes (eraseKey e.1 m) := by
  induction m with
  | nil => cases he
  | cons x rest ih =>
    simp only [keysOf, List.map_cons, List.nodup_cons] at h
    rcases List.mem_cons.mp he with rfl | hmem
    · simp only [eraseKey, if_pos rfl]
      rw [eraseKey_eq_self_of_not_mem _ _ h.1]
      simp [sumSizes]
    · have hne : ¬ x.1 = e.1 := by
        intro hx
        exact h.1 (hx ▸ mem_keysOf_of_mem hmem)
      simp only [eraseKey, if_neg hne]
      have := ih hmem h.2
      simp only [sumSizes, List.map_cons, List.sum_cons] at *
      omega

/-! ## Permutation lemmas for the sort and the eviction bookkeeping -/

theorem insert_by_perm {α : Type} (le : α → α → Bool) (a : α) (l : List α) :
    (insert_by le a l).Perm (a :: l) := by
  induction l with
  | nil => exact List.Perm.refl _
  | cons b l ih =>
    simp only [insert_by]
    split
    · exact List.Perm.refl _
    · exact (ih.cons b).trans (List.Perm.swap a b l)

theorem sort_by_perm {α : Type} (le : α → α → Bool) (l : List α) :
    (sort_by le l).Perm l := by
  induction l with
  | nil => exact List.Perm.refl _
  | cons a l ih => exact (insert_by_perm le a _).trans (ih.cons a)

theorem sorted_priorities_perm (c : Cache) :
    (sorted_priorities c).Perm (c.file_map.map (file_priority_entry c)) :=
  sort_by_perm _ _

theorem perm_cons_eraseFirst {α : Type} [DecidableEq α] (a : α) :
    ∀ l : List α, a ∈ l → l.Perm (a :: eraseFirst a l) := by
  intro l
  induction l with
  | nil => intro h; cases h
  | cons b l ih =>
    intro h
    by_cases hb : b = a
    · subst hb
      simp only [eraseFirst, if_pos rfl]
      exact List.Perm.refl _
    · have hal : a ∈ l := by
        rcases List.mem_cons.mp h with h' | h'
        · exact absurd h'.symm hb
        · exact h'
      simp only [eraseFirst, if_neg hb]
      exact ((ih hal).cons b).trans (List.Perm.swap a b _)

theorem subperm_eraseFirst_of_cons_subperm {α : Type} [DecidableEq α] {a : α}
    {ts l : List α} (h : (a :: ts).Subperm l) : ts.Subperm (eraseFirst a l) := by
  have ha : a ∈ l := h.subset (List.mem_cons_self a ts)
  exact (List.subperm_cons a).mp (h.trans (perm_cons_eraseFirst a l ha).subperm)

theorem eraseKey_cons_of_eq {β : Type} {k : String} (e : String × β)
    (rest : List (String × β)) (h : e.1 = k) :
    eraseKey k (e :: rest) = eraseKey k rest := by
  simp [eraseKey, h]

theorem eraseKey_cons_of_ne {β : Type} {k : String} (e : String × β)
    (rest : List (String × β)) (h : ¬ e.1 = k) :
    eraseKey k (e :: rest) = e :: eraseKey k rest := by
  simp [eraseKey, h]

theorem map_entry_eraseFirst_perm (c : Cache) :
    ∀ (m : List (String × SizedFile)) (t : String × Nat × Nat),
      (keysOf m).Nodup → t ∈ m.map (file_priority_entry c) →
      (eraseFirst t (m.map (file_priority_entry c))).Perm
        ((eraseKey t.1 m).map (file_priority_entry c)) := by
  intro m
  induction m with
  | nil => intro t _ ht; cases ht
  | cons x rest ih =>
    intro t hn ht
    simp only [keysOf, List.map_cons, List.nodup_cons] at hn
    rw [List.map_cons] at ht
    by_cases hx : file_priority_entry c x = t
    · subst hx
      simp only [List.map_cons, eraseFirst, if_pos rfl]
      have hkey : (file_priority_entry c x).1 = x.1 := rfl
      rw [hkey, eraseKey_cons_of_eq x rest rfl,
        eraseKey_eq_self_of_not_mem _ _ hn.1]
      exact List.Perm.refl _
    · have htr : t ∈ rest.map (file_priority_entry c) := by
        rcases List.mem_cons.mp ht with h | h
        · exact absurd h.symm hx
        · exact h
      have ht1 : ¬ x.1 = t.1 := by
        obtain ⟨e, hem, rfl⟩ := List.mem_map.mp htr
        intro hk
        exact hn.1 (hk ▸ mem_keysOf_of_mem hem)
      rw [List.map_cons]
      simp only [eraseFirst, if_neg hx]
      rw [eraseKey_cons_of_ne x rest ht1, List.map_cons]
      exact (ih t hn.2 htr).cons _

theorem sumSizes_eraseAll_of_subperm (c : Cache) :
    ∀ (ts : List (String × Nat × Nat)) (m : List (String × SizedFile)),
      (keysOf m).Nodup →
      ts.Subperm (m.map (file_priority_entry c)) →
      sumSizes (eraseAll m (ts.map (fun t => t.1))) + (ts.map (fun t => t.2.2)).sum =
        sumSizes m := by
  intro ts
  induction ts with
  | nil => intro m _ _; simp [eraseAll]
  | cons t ts ih =>
    intro m hn hsub
    have htmem : t ∈ m.map (file_priority_entry c) := hsub.subset (List.mem_cons_self t ts)
    have hts : ts.Subperm (eraseFirst t (m.map (file_priority_entry c))) :=
      subperm_eraseFirst_of_cons_subperm hsub
    have herase := map_entry_eraseFirst_perm c m t hn htmem
    have hts' : ts.Subperm ((eraseKey t.1 m).map (file_priority_entry c)) :=
      hts.trans herase.subperm
    have hn' : (keysOf (eraseKey t.1 m)).Nodup := nodup_keysOf_eraseKey _ m hn
    have hIH := ih (eraseKey t.1 m) hn' hts'
    obtain ⟨e, hem, he⟩ := List.mem_map.mp htmem
    have hkey : t.1 = e.1 := congrArg Prod.fst he.symm
    have hsize : t.2.2 = e.2.size := congrArg (fun p => p.2.2) he.symm
    have hsum := sumSizes_eraseKey_of_mem m e hem hn
    have hstep : eraseAll m ((t :: ts).map (fun t => t.1)) =
        eraseAll (eraseKey t.1 m) (ts.map (fun t => t.1)) := rfl
    rw [hstep]
    simp only [List.map_cons, List.sum_cons, hsize]
    rw [hkey] at hIH ⊢
    omega

/-! ## Specification of the eviction loop -/

theorem make_room_loop_nil (required_space new_file_priority freed prio_sum : Nat)
    (acc : List String) :
    make_room_loop [] required_space new_file_priority freed prio_sum acc =
      if freed < required_space then Except.error "No more files to remove"
      else Except.ok acc := rfl

theorem make_room_loop_cons (lowest : String × Nat × Nat) (rest : List (String × Nat × Nat))
    (required_space new_file_priority freed prio_sum : Nat) (acc : List String) :
    make_room_loop (lowest :: rest) required_space new_file_priority freed prio_sum acc =
      if freed < required_space then
        if prio_sum + lowest.2.1 > new_file_priority then
          Except.error "Priority of new file is not higher than the aggregate priority of the files it would replace"
        else
          make_room_loop rest required_space new_file_priority
            (freed + lowest.2.2) (prio_sum + lowest.2.1) (acc ++ [lowest.1])
      else Except.ok acc := rfl

theorem make_room_loop_ok (required_space new_file_priority : Nat) :
    ∀ (pending : List (String × Nat × Nat)) (freed prio_sum : Nat) (acc out : List String),
      make_room_loop pending required_space new_file_priority freed prio_sum acc =
        Except.ok out →
      ∃ popped : List (String × Nat × Nat),
        popped.Sublist pending ∧
        out = acc ++ popped.map (fun t => t.1) ∧
        required_space ≤ freed + (popped.map (fun t => t.2.2)).sum := by
  intro pending
  induction pending with
  | nil =>
    intro freed prio_sum acc out h
    rw [make_room_loop_nil] at h
    split at h
    · cases h
    · injection h with h
      refine ⟨[], List.Sublist.refl _, by simp [h.symm], ?_⟩
      simp only [List.map_nil, List.sum_nil, Nat.add_zero]
      omega
  | cons lowest rest ih =>
    intro freed prio_sum acc out h
    rw [make_room_loop_cons] at h
    split at h
    · split at h
      · cases h
      · obtain ⟨popped, hsub, hout, hreq⟩ := ih _ _ _ _ h
        refine ⟨lowest :: popped, hsub.cons₂ lowest, ?_, ?_⟩
        · rw [hout, List.map_cons, List.append_assoc, List.singleton_append]
        · simp only [List.map_cons, List.sum_cons]
          omega
    · injection h with h
      refine ⟨[], List.nil_sublist _, by simp [h.symm], ?_⟩
      simp only [List.map_nil, List.sum_nil, Nat.add_zero]
      omega

theorem make_room_loop_error (required_space new_file_priority : Nat) :
    ∀ (pending : List (String × Nat × Nat)) (freed prio_sum : Nat) (acc : List String)
      (msg : String),
      make_room_loop pending required_space new_file_priority freed prio_sum acc =
        Except.error msg →
      msg = "Priority of new file is not higher than the aggregate priority of the files it would replace" ∨
      msg = "No more files to remove" := by
  intro pending
  induction pending with
  | nil =>
    intro freed prio_sum acc msg h
    rw [make_room_loop_nil] at h
    split at h
    · injection h with h
      exact Or.inr h.symm
    · cases h
  | cons lowest rest ih =>
    intro freed prio_sum acc msg h
    rw [make_room_loop_cons] at h
    split at h
    · split at h
      · injection h with h
        exact Or.inl h.symm
      · exact ih _ _ _ _ h
    · cases h

theorem make_room_for_new_file_ok_shape (c : Cache) (r np : Nat) (c2 : Cache)
    (h : make_room_for_new_file c r np = Except.ok c2) :
    ∃ ks : List String, c2 = { c with file_map := eraseAll c.file_map ks } := by
  unfold make_room_for_new_file at h
  split at h
  · next ks hloop =>
      injection h with h
      exact ⟨ks, h.symm⟩
  · cases h

theorem make_room_for_new_file_ok_size (c : Cache) (r np : Nat) (c2 : Cache)
    (hn : (keysOf c.file_map).Nodup)
    (h : make_room_for_new_file c r np = Except.ok c2) :
    (keysOf c2.file_map).Nodup ∧ sumSizes c2.file_map + r ≤ sumSizes c.file_map := by
  unfold make_room_for_new_file at h
  split at h
  · next ks hloop =>
      injection h with h
      obtain ⟨popped, hsub, hout, hreq⟩ :=
        make_room_loop_ok r np (sorted_priorities c).reverse 0 0 [] ks hloop
      rw [List.nil_append] at hout
      subst hout
      have hsubperm : popped.Subperm (c.file_map.map (file_priority_entry c)) :=
        hsub.subperm.trans
          (((sorted_priorities c).reverse_perm).trans (sorted_priorities_perm c)).subperm
      have hsum := sumSizes_eraseAll_of_subperm c popped c.file_map hn hsubperm
      constructor
      · rw [← h]
        exact nodup_keysOf_eraseAll _ c.file_map hn
      · rw [← h]
        simp only []
        omega
  · cases h

theorem make_room_for_new_file_error_msg (c : Cache) (r np : Nat) (msg : String)
    (h : make_room_for_new_file c r np = Except.error msg) :
    msg = "Priority of new file is not higher than the aggregate priority of the files it would replace" ∨
    msg = "No more files to remove" := by
  unfold make_room_for_new_file at h
  split at h
  · cases h
  · next msg' hloop =>
      injection h with h
      exact h ▸ make_room_loop_error r np _ 0 0 [] msg' hloop

/-! ## Frame and invariant lemmas for the cache operations -/

theorem try_store_size_limit_eq (c : Cache) (path : String) (file : SizedFile) :
    (try_store c path file).2.size_limit = c.size_limit := by
  unfold try_store
  split
  · rfl
  · split
    · next c2 hmr =>
        obtain ⟨ks, rfl⟩ := make_room_for_new_file_ok_shape c _ _ c2 hmr
        rfl
    · rfl

theorem try_store_access_count_map_eq (c : Cache) (path : String) (file : SizedFile) :
    (try_store c path file).2.access_count_map = c.access_count_map := by
  unfold try_store
  split
  · rfl
  · split
    · next c2 hmr =>
        obtain ⟨ks, rfl⟩ := make_room_for_new_file_ok_shape c _ _ c2 hmr
        rfl
    · rfl

theorem try_store_priority_function_eq (c : Cache) (path : String) (file : SizedFile) :
    (try_store c path file).2.priority_function = c.priority_function := by
  unfold try_store
  split
  · rfl
  · split
    · next c2 hmr =>
        obtain ⟨ks, rfl⟩ := make_room_for_new_file_ok_shape c _ _ c2 hmr
        rfl
    · rfl

theorem try_store_nodup (c : Cache) (path : String) (file : SizedFile)
    (hn : (keysOf c.file_map).Nodup) :
    (keysOf (try_store c path file).2.file_map).Nodup := by
  unfold try_store
  split
  · exact nodup_keysOf_insertA _ _ _ hn
  · split
    · next c2 hmr =>
        exact nodup_keysOf_insertA _ _ _ (make_room_for_new_file_ok_size c _ _ c2 hn hmr).1
    · exact hn

theorem try_store_sumSizes_le (c : Cache) (path : String) (file : SizedFile)
    (hn : (keysOf c.file_map).Nodup) (hb : sumSizes c.file_map ≤ c.size_limit) :
    sumSizes (try_store c path file).2.file_map ≤ c.size_limit := by
  unfold try_store
  split
  · next hreq =>
      unfold required_space_for_new_file at hreq
      rw [size_bytes_eq_sumSizes] at hreq
      rw [sumSizes_insertA]
      have := sumSizes_eraseKey_le path c.file_map
      omega
  · next hreq =>
      unfold required_space_for_new_file at hreq
      rw [size_bytes_eq_sumSizes] at hreq
      split
      · next c2 hmr =>
          have hsz := (make_room_for_new_file_ok_size c _ _ c2 hn hmr).2
          unfold required_space_for_new_file at hsz
          rw [size_bytes_eq_sumSizes] at hsz
          rw [sumSizes_insertA]
          have := sumSizes_eraseKey_le path c2.file_map
          omega
      · exact hb

theorem increment_access_count_file_map_eq (c : Cache) (path : String) :
    (increment_access_count c path).file_map = c.file_map := rfl

theorem increment_access_count_size_limit_eq (c : Cache) (path : String) :
    (increment_access_count c path).size_limit = c.size_limit := rfl

theorem get_or_cache_nodup (read : String → Option SizedFile) (c : Cache) (path : String)
    (hn : (keysOf c.file_map).Nodup) :
    (keysOf (get_or_cache read c path).2.file_map).Nodup := by
  unfold get_or_cache
  split
  · exact hn
  · split
    · exact try_store_nodup _ _ _ hn
    · exact hn

theorem get_or_cache_size_limit_eq (read : String → Option SizedFile) (c : Cache)
    (path : String) :
    (get_or_cache read c path).2.size_limit = c.size_limit := by
  unfold get_or_cache
  split
  · rfl
  · split
    · exact try_store_size_limit_eq _ _ _
    · rfl

theorem get_or_cache_sumSizes_le (read : String → Option SizedFile) (c : Cache) (path : String)
    (hn : (keysOf c.file_map).Nodup) (hb : sumSizes c.file_map ≤ c.size_limit) :
    sumSizes (get_or_cache read c path).2.file_map ≤ c.size_limit := by
  unfold get_or_cache
  split
  · exact hb
  · split
    · exact try_store_sumSizes_le _ _ _ hn hb
    · exact hb

/-- Combined invariant of all reachable states: the resident map has unique
keys (as a `HashMap` does) and its total size respects the byte budget. -/
theorem reachable_invariant (c : Cache) (h : Reachable c) :
    (keysOf c.file_map).Nodup ∧ sumSizes c.file_map ≤ c.size_limit := by
  induction h with
  | new_cache n => exact ⟨List.nodup_nil, by simp [Cache.new, sumSizes]⟩
  | new_with n pf => exact ⟨List.nodup_nil, by simp [Cache.new_with_priority_function, sumSizes]⟩
  | store c path file _ ih =>
    refine ⟨try_store_nodup c path file ih.1, ?_⟩
    rw [try_store_size_limit_eq]
    exact try_store_sumSizes_le c path file ih.1 ih.2
  | incr c path _ ih =>
    exact ⟨ih.1, ih.2⟩
  | get_cache read c path _ ih =>
    refine ⟨get_or_cache_nodup read c path ih.1, ?_⟩
    rw [get_or_cache_size_limit_eq]
    exact get_or_cache_sumSizes_le read c path ih.1 ih.2

/-! ## Validation of the integer square root -/

theorem sqrt_iter_spec :
    ∀ (fuel n : Nat), n < 4 ^ fuel →
      sqrt_iter fuel n * sqrt_iter fuel n ≤ n ∧
      n < (sqrt_iter fuel n + 1) * (sqrt_iter fuel n + 1) := by
  intro fuel
  induction fuel with
  | zero =>
    intro n hn
    rw [pow_zero] at hn
    have h0 : n = 0 := by omega
    subst h0
    simp [sqrt_iter]
  | succ fuel ih =>
    intro n hn
    by_cases h0 : n = 0
    · subst h0
      simp [sqrt_iter]
    · have hdiv : n / 4 < 4 ^ fuel := by
        have h4 : n < 4 ^ fuel * 4 := by rw [← pow_succ]; exact hn
        omega
      obtain ⟨h1, h2⟩ := ih (n / 4) hdiv
      have hval : sqrt_iter (fuel + 1) n =
          if (2 * sqrt_iter fuel (n / 4) + 1) * (2 * sqrt_iter fuel (n / 4) + 1) ≤ n then
            2 * sqrt_iter fuel (n / 4) + 1
          else 2 * sqrt_iter fuel (n / 4) := by
        simp only [sqrt_iter]
        rw [if_neg h0]
      rw [hval]
      have hfloor_hi : n ≤ 4 * (n / 4) + 3 := by omega
      have hfloor_lo : 4 * (n / 4) ≤ n := by omega
      split
      · next hle =>
          refine ⟨hle, ?_⟩
          nlinarith [h2, hfloor_hi]
      · next hgt =>
          refine ⟨?_, by omega⟩
          nlinarith [h1, hfloor_lo]

/-- The fuel-driven square root computes `Nat.sqrt`: evidence that
`sqrt_iter` is a correct model of the (floor of the) square root used by
`balanced_priority`. -/
theorem sqrt_iter_eq_sqrt (n : Nat) : sqrt_iter n n = Nat.sqrt n := by
  have hfuel : n < 4 ^ n := Nat.lt_pow_self (by omega) n
  obtain ⟨h1, h2⟩ := sqrt_iter_spec n n hfuel
  have hle : sqrt_iter n n ≤ Nat.sqrt n := Nat.le_sqrt.mpr h1
  have hlt : Nat.sqrt n < sqrt_iter n n + 1 := Nat.sqrt_lt.mpr h2
  omega

/-! ## Claim theorems -/

/-- C1: for every reachable cache state (any sequence of
`new`/`new_with_priority_function`, `try_store`, `increment_access_count` and
`get_or_cache` calls), the sum of the sizes of the entries in `file_map` is
at most `size_limit`. -/
theorem budget_invariant (c : Cache) (h : Reachable c) : size_bytes c ≤ c.size_limit := by
  rw [size_bytes_eq_sumSizes]
  exact (reachable_invariant c h).2

/-- Witness for `budget_invariant`: the invariant at the concrete reachable
state obtained by storing a 5,000,000-byte file in a fresh cache with a
5,500,000-byte budget. -/
theorem budget_invariant_witness :
    size_bytes (try_store (Cache.new 5500000) "x" { bytes := [], size := 5000000 }).2 ≤
      (try_store (Cache.new 5500000) "x" { bytes := [], size := 5000000 }).2.size_limit :=
  budget_invariant _ (Reachable.store _ _ _ (Reachable.new_cache 5500000))

/-- C2: whenever `try_store` returns the *PriorityTooLow* error
(`NewPriorityIsNotHighEnough`), the cache state — in particular `file_map`
and hence its total byte size — is exactly what it was before the call. -/
theorem try_store_priority_too_low_frame (c : Cache) (path : String) (file : SizedFile) :
    (try_store c path file).1 = Except.error CacheInvalidationError.NewPriorityIsNotHighEnough →
    (try_store c path file).2 = c := by
  unfold try_store
  split
  · intro h
    exact absurd h (by simp)
  · split
    · intro h
      exact absurd h (by simp)
    · intro _
      rfl

/-- Witness for `try_store_priority_too_low_frame`: a 10,000,000-byte file
rejected by an empty 8,000,000-byte cache leaves the cache untouched. -/
theorem try_store_priority_too_low_frame_witness :
    (try_store (Cache.new 8000000) "t" { bytes := [], size := 10000000 }).2 =
      Cache.new 8000000 :=
  try_store_priority_too_low_frame (Cache.new 8000000) "t"
    { bytes := [], size := 10000000 } rfl

/-- C3 counterexample: in the exact-fit case
(`current_resident_bytes + file.size - size_limit = 0`) `try_store` does
**not** return `InsertedFileIntoAvailableSpace` (the source tests
`required_space < 0`, not `≤ 0`, so the exact fit goes through the eviction
search and reports `ReplacedFile`). -/
theorem try_store_exact_fit_counterexample :
    required_space_for_new_file (Cache.new 10) { bytes := [], size := 10 } = 0 ∧
    (try_store (Cache.new 10) "x" { bytes := [], size := 10 }).1 ≠
      Except.ok CacheInvalidationSuccess.InsertedFileIntoAvailableSpace := by
  constructor
  · rfl
  · intro h
    rw [show (try_store (Cache.new 10) "x" { bytes := [], size := 10 }).1 =
        Except.ok CacheInvalidationSuccess.ReplacedFile from rfl] at h
    simp at h

/-- Helper: with `required_space = 0` the eviction loop exits immediately,
removing nothing. -/
theorem make_room_for_new_file_zero (c : Cache) (np : Nat) :
    make_room_for_new_file c 0 np = Except.ok c := by
  unfold make_room_for_new_file
  have hloop : make_room_loop (sorted_priorities c).reverse 0 np 0 0 [] = Except.ok [] := by
    cases (sorted_priorities c).reverse with
    | nil => rw [make_room_loop_nil]; rfl
    | cons a l => rw [make_room_loop_cons]; rfl
  rw [hloop]
  rfl

/-- C3 (amended): if `current_resident_bytes + file.size - size_limit ≤ 0`
then `try_store` inserts the file into `file_map` without evicting anything;
it returns `InsertedFileIntoAvailableSpace` when the quantity is strictly
negative, but in the exact-fit case (`= 0`) it returns `ReplacedFile`. -/
theorem try_store_fits_available_space (c : Cache) (path : String) (file : SizedFile)
    (hle : required_space_for_new_file c file ≤ 0) :
    (try_store c path file).2.file_map = insertA c.file_map path file ∧
    (required_space_for_new_file c file < 0 →
      (try_store c path file).1 =
        Except.ok CacheInvalidationSuccess.InsertedFileIntoAvailableSpace) ∧
    (required_space_for_new_file c file = 0 →
      (try_store c path file).1 = Except.ok CacheInvalidationSuccess.ReplacedFile) := by
  unfold try_store
  split
  · next hreq =>
      exact ⟨rfl, fun _ => rfl, fun h0 => absurd h0 (by omega)⟩
  · next hreq =>
      have h0 : required_space_for_new_file c file = 0 := le_antisymm hle (not_lt.mp hreq)
      rw [h0, show ((0 : Int)).toNat = 0 from rfl, make_room_for_new_file_zero]
      exact ⟨rfl, fun hlt => absurd hlt (by omega), fun _ => rfl⟩

/-- Witness for `try_store_fits_available_space` at the exact-fit input. -/
theorem try_store_fits_available_space_witness :
    (try_store (Cache.new 10) "y" { bytes := [], size := 10 }).2.file_map =
      insertA (Cache.new 10).file_map "y" { bytes := [], size := 10 } ∧
    (required_space_for_new_file (Cache.new 10) { bytes := [], size := 10 } < 0 →
      (try_store (Cache.new 10) "y" { bytes := [], size := 10 }).1 =
        Except.ok CacheInvalidationSuccess.InsertedFileIntoAvailableSpace) ∧
    (required_space_for_new_file (Cache.new 10) { bytes := [], size := 10 } = 0 →
      (try_store (Cache.new 10) "y" { bytes := [], size := 10 }).1 =
        Except.ok CacheInvalidationSuccess.ReplacedFile) :=
  try_store_fits_available_space (Cache.new 10) "y" { bytes := [], size := 10 } (by decide)

/-- C4 counterexample: a resident entry with no `access_count_map` entry is
scored by `sorted_priorities` with access count 1, not 0: for a 4-byte file
the computed priority is `priority_function 1 4 = 2`, whereas
`priority_function 0 4 = 0`. -/
theorem sorted_priorities_missing_count_counterexample :
    sorted_priorities
        { size_limit := 3, priority_function := DEFAULT_PRIORITY_FUNCTION,
          file_map := [("x", { bytes := [], size := 4 })], access_count_map := [] } =
      [("x", DEFAULT_PRIORITY_FUNCTION 1 4, 4)] ∧
    DEFAULT_PRIORITY_FUNCTION 1 4 ≠ DEFAULT_PRIORITY_FUNCTION 0 4 := by
  constructor
  · rfl
  · decide

/-- C4 (amended): during the eviction search, a resident entry whose path has
no entry in `access_count_map` has its priority computed with access count
**1** (`unwrap_or(&1)` in `sorted_priorities`), i.e. its scored triple is
`(path, priority_function 1 size, size)`. -/
theorem sorted_priorities_missing_count_default_one (c : Cache) (k : String) (f : SizedFile)
    (hm : (k, f) ∈ c.file_map) (hl : lookupA c.access_count_map k = none) :
    (k, c.priority_function 1 f.size, f.size) ∈ sorted_priorities c := by
  have h1 : file_priority_entry c (k, f) ∈ c.file_map.map (file_priority_entry c) :=
    List.mem_map_of_mem _ hm
  have h2 : file_priority_entry c (k, f) = (k, c.priority_function 1 f.size, f.size) := by
    simp [file_priority_entry, hl]
  rw [← h2]
  exact ((sorted_priorities_perm c).mem_iff).mpr h1

/-- Witness for `sorted_priorities_missing_count_default_one` at a concrete
cache holding one uncounted 4-byte entry. -/
theorem sorted_priorities_missing_count_default_one_witness :
    ("x", DEFAULT_PRIORITY_FUNCTION 1 4, 4) ∈ sorted_priorities
      { size_limit := 3, priority_function := DEFAULT_PRIORITY_FUNCTION,
        file_map := [("x", { bytes := [], size := 4 })], access_count_map := [] } :=
  sorted_priorities_missing_count_default_one _ "x" { bytes := [], size := 4 }
    (by simp) rfl

/-- C5: Scenario B with the default (balanced) priority function and
`size_limit = 5,500,000`: storing the 5,000,000-byte file X (never counted)
succeeds into available space; the 1,000,000-byte file Y is rejected with
*PriorityTooLow* at access counts 1 and 2 and admitted (`ReplacedFile`) at
access count 3, after which X is no longer resident and Y is. -/
theorem scenario_b :
    let fx : SizedFile := { bytes := [], size := 5000000 }
    let fy : SizedFile := { bytes := [], size := 1000000 }
    let st1 := try_store (Cache.new 5500000) "x" fx
    let st2 := try_store (increment_access_count st1.2 "y") "y" fy
    let st3 := try_store (increment_access_count st2.2 "y") "y" fy
    let st4 := try_store (increment_access_count st3.2 "y") "y" fy
    st1.1 = Except.ok CacheInvalidationSuccess.InsertedFileIntoAvailableSpace ∧
    st2.1 = Except.error CacheInvalidationError.NewPriorityIsNotHighEnough ∧
    st3.1 = Except.error CacheInvalidationError.NewPriorityIsNotHighEnough ∧
    st4.1 = Except.ok CacheInvalidationSuccess.ReplacedFile ∧
    lookupA st4.2.file_map "x" = none ∧
    (lookupA st4.2.file_map "y").isSome = true :=
  ⟨rfl, rfl, rfl, rfl, rfl, rfl⟩

/-- C6: a 10,000,000-byte file offered to an empty 8,000,000-byte cache is
rejected with *PriorityTooLow*; and, in general, both internal abort causes
of the eviction search (aggregate evictee priority exceeds the candidate,
or the resident set exhausted) surface to the caller as the single public
error `NewPriorityIsNotHighEnough`. -/
theorem priority_too_low_collapses_abort_causes :
    ((try_store (Cache.new 8000000) "t" { bytes := [], size := 10000000 }).1 =
      Except.error CacheInvalidationError.NewPriorityIsNotHighEnough) ∧
    ∀ (c : Cache) (path : String) (file : SizedFile) (msg : String),
      ¬ required_space_for_new_file c file < 0 →
      make_room_for_new_file c (required_space_for_new_file c file).toNat
          (c.priority_function ((lookupA c.access_count_map path).getD 0) file.size) =
        Except.error msg →
      ((try_store c path file).1 =
        Except.error CacheInvalidationError.NewPriorityIsNotHighEnough ∧
       (msg = "Priority of new file is not higher than the aggregate priority of the files it would replace" ∨
        msg = "No more files to remove")) := by
  constructor
  · rfl
  · intro c path file msg hreq herr
    constructor
    · unfold try_store
      rw [if_neg hreq, herr]
    · exact make_room_for_new_file_error_msg c _ _ msg herr

/-- Witness for `priority_too_low_collapses_abort_causes`: the
resident-set-exhausted abort cause at a concrete input, reported as
`NewPriorityIsNotHighEnough`. -/
theorem priority_too_low_collapses_abort_causes_witness :
    (try_store (Cache.new 8000000) "t" { bytes := [], size := 10000000 }).1 =
      Except.error CacheInvalidationError.NewPriorityIsNotHighEnough ∧
    ("No more files to remove" =
        "Priority of new file is not higher than the aggregate priority of the files it would replace" ∨
     "No more files to remove" = "No more files to remove") :=
  ⟨priority_too_low_collapses_abort_causes.1,
   (priority_too_low_collapses_abort_causes.2 (Cache.new 8000000) "t"
      { bytes := [], size := 10000000 } "No more files to remove" (by decide) rfl).2⟩

/-- C7: on a miss (`path` not resident) whose blob-store read succeeds,
`get_or_cache` increments the path's access counter exactly once and returns
a handle to the newly read file, whatever the admission attempt does. -/
theorem get_or_cache_miss_read_ok (read : String → Option SizedFile) (c : Cache)
    (path : String) (file : SizedFile)
    (hmiss : lookupA c.file_map path = none) (hread : read path = some file) :
    (get_or_cache read c path).1 = some { path := path, file := file } ∧
    (get_or_cache read c path).2.access_count_map = bump path c.access_count_map := by
  have hget : c.get path = none := by
    unfold Cache.get
    rw [hmiss]
  unfold get_or_cache
  rw [hget, hread]
  refine ⟨rfl, ?_⟩
  show (try_store (increment_access_count c path) path file).2.access_count_map =
    bump path c.access_count_map
  rw [try_store_access_count_map_eq]
  rfl

/-- Witness for `get_or_cache_miss_read_ok`: a fresh 50-byte cache serving a
100-byte file (admission fails, the file is still served and counted). -/
theorem get_or_cache_miss_read_ok_witness :
    (get_or_cache (fun p => if p = "a" then some { bytes := [], size := 100 } else none)
        (Cache.new 50) "a").1 =
      some { path := "a", file := { bytes := [], size := 100 } } ∧
    (get_or_cache (fun p => if p = "a" then some { bytes := [], size := 100 } else none)
        (Cache.new 50) "a").2.access_count_map =
      bump "a" (Cache.new 50).access_count_map :=
  get_or_cache_miss_read_ok _ _ _ _ rfl rfl

/-- C8: on a miss whose blob-store read fails, `get_or_cache` returns an
empty result and leaves the whole cache — in particular `access_count_map` —
unchanged: no counter is incremented or created. -/
theorem get_or_cache_miss_read_fails (read : String → Option SizedFile) (c : Cache)
    (path : String) (hmiss : lookupA c.file_map path = none) (hread : read path = none) :
    get_or_cache read c path = (none, c) := by
  have hget : c.get path = none := by
    unfold Cache.get
    rw [hmiss]
  unfold get_or_cache
  rw [hget, hread]

/-- Witness for `get_or_cache_miss_read_fails` on a fresh cache with an
always-failing blob store. -/
theorem get_or_cache_miss_read_fails_witness :
    get_or_cache (fun _ => none) (Cache.new 10) "a" = (none, Cache.new 10) :=
  get_or_cache_miss_read_fails _ _ _ rfl rfl

/-- C9: eviction only mutates `file_map`: `try_store` never changes
`access_count_map`, so no counter is removed or reset by eviction, and a
path re-accessed after its file was evicted accumulates on its prior
counter value. -/
theorem eviction_preserves_access_count_map (c : Cache) (path : String) (file : SizedFile)
    (q : String) :
    (try_store c path file).2.access_count_map = c.access_count_map ∧
    lookupA (increment_access_count (try_store c path file).2 q).access_count_map q =
      some ((lookupA c.access_count_map q).getD 0 + 1) := by
  refine ⟨try_store_access_count_map_eq c path file, ?_⟩
  show lookupA (bump q (try_store c path file).2.access_count_map) q = _
  rw [try_store_access_count_map_eq]
  exact lookupA_bump q c.access_count_map

/-- C10: the balanced (default) priority function is monotone non-decreasing
in its access-count argument for every fixed size. -/
theorem balanced_priority_monotone (s a1 a2 : Nat) (h : a1 ≤ a2) :
    balanced_priority a1 s ≤ balanced_priority a2 s :=
  Nat.mul_le_mul (Nat.le_refl _) h

/-- Witness for `balanced_priority_monotone` at size 4, counts 1 ≤ 3. -/
theorem balanced_priority_monotone_witness :
    balanced_priority 1 4 ≤ balanced_priority 3 4 :=
  balanced_priority_monotone 4 1 3 (by decide)
